/-
Verification of the siquijor.xyz content pipeline.

This file gives a shallow embedding, in Lean 4, of the parts of the
repository that the specification's claims are about:

  * `src/utils/helpers.ts`  — `slugify`, `calculateReadingTime`, `truncate`,
    `formatPrice`, `formatPriceRange`, `extractHeadings`;
  * `src/utils/schema.ts`   — `generateArticleSchema`,
    `generateTouristAttractionSchema`, `generateHowToSchema`;
  * `src/content/config.ts` — the zod articles schema (`parseArticle`);
  * `src/pages/rss.xml.ts`  — the RSS `GET` endpoint.

JavaScript strings are modelled as Lean `String` / `List Char`; JavaScript
`Number` values that the claims exercise are integral throughout and are
modelled as `Int` (or `Nat` where the source value is a count).  Regular
expressions are modelled by executable functions that follow the concrete
regexes of the source, including greedy matching and single-character
backtracking where the particular pattern can need it.  JavaScript `Date`
values are modelled by their ISO rendering where only the rendering is used
(schema generators) and by their numeric timestamp where only ordering is
used (the RSS feed).
-/
import Mathlib

set_option maxHeartbeats 1000000
set_option maxRecDepth 100000

namespace Siquijor

/-! ## JavaScript character classes

`jsWhitespace` is the character set matched by the JavaScript regex class
`\s` (WhiteSpace ∪ LineTerminator), which is also exactly the set trimmed
by `String.prototype.trim`.  `jsLineTerm` is the ECMAScript LineTerminator
set (the characters `.` does not match).  `jsWordChar` is `\w`. -/

def jsWhitespace (c : Char) : Bool :=
  let n := c.toNat
  n == 9 || n == 10 || n == 11 || n == 12 || n == 13 || n == 32 ||
  n == 160 || n == 5760 || (decide (8192 ≤ n) && decide (n ≤ 8202)) ||
  n == 8232 || n == 8233 || n == 8239 || n == 8287 || n == 12288 || n == 65279

def jsLineTerm (c : Char) : Bool :=
  let n := c.toNat
  n == 10 || n == 13 || n == 8232 || n == 8233

def jsWordChar (c : Char) : Bool :=
  let n := c.toNat
  (decide (97 ≤ n) && decide (n ≤ 122)) || (decide (65 ≤ n) && decide (n ≤ 90)) ||
  (decide (48 ≤ n) && decide (n ≤ 57)) || n == 95

/-- Characters matched by `[\s_-]` (the run-collapsing class in `slugify`). -/
def slugSep (c : Char) : Bool :=
  jsWhitespace c || c.toNat == 95 || c.toNat == 45

/-- Characters kept by the `replace(/[^\w\s-]/g, '')` step of `slugify`. -/
def slugKeep (c : Char) : Bool :=
  jsWordChar c || jsWhitespace c || c.toNat == 45

/-- A hyphen-minus, `'-'` (the characters stripped by `replace(/^-+|-+$/g, '')`). -/
def isHyphen (c : Char) : Bool :=
  c.toNat == 45

/-- The character set the specification asserts for `slugify` output:
lowercase ASCII alphanumerics and hyphens. -/
def isSlugChar (c : Char) : Bool :=
  (decide (97 ≤ c.toNat) && decide (c.toNat ≤ 122)) ||
  (decide (48 ≤ c.toNat) && decide (c.toNat ≤ 57)) || c.toNat == 45

/-! ## Edge trimming

`dropEdges p l` removes the maximal run of `p`-characters from both ends of
`l`; it models both `String.prototype.trim` (with `p := jsWhitespace`) and
the `replace(/^-+|-+$/g, '')` step of `slugify` (with `p := isHyphen`). -/

def dropEdges (p : Char → Bool) (l : List Char) : List Char :=
  List.dropWhile p ((List.dropWhile p l.reverse).reverse)

/-- `String.prototype.trim`. -/
def jsTrim (l : List Char) : List Char := dropEdges jsWhitespace l

/-! ## slugify (`helpers.ts`, lines 42–49)

```js
export function slugify(text: string): string {
  return text
    .toLowerCase()
    .trim()
    .replace(/[^\w\s-]/g, '')
    .replace(/[\s_-]+/g, '-')
    .replace(/^-+|-+$/g, '');
}
```

`collapseSeps` performs the `replace(/[\s_-]+/g, '-')` step: a maximal run
of separator characters becomes a single `'-'`; the `inSep` flag records
whether the previous character belonged to a run already replaced.
`.toLowerCase()` is modelled by mapping `Char.toLower` (the basic-latin
case mapping; JavaScript applies the full Unicode simple mapping, which
agrees on every character that can survive the `\w`-filter that follows). -/

def collapseSeps : Bool → List Char → List Char
  | _, [] => []
  | inSep, c :: rest =>
    if slugSep c then
      if inSep then collapseSeps true rest
      else '-' :: collapseSeps true rest
    else c :: collapseSeps false rest

def slugifyList (l : List Char) : List Char :=
  dropEdges isHyphen
    (collapseSeps false (List.filter slugKeep (jsTrim (l.map Char.toLower))))

def slugify (s : String) : String := ⟨slugifyList s.data⟩

/-! ## calculateReadingTime (`helpers.ts`, lines 33–37)

```js
export function calculateReadingTime(content: string): number {
  const wordsPerMinute = 200;
  const words = content.trim().split(/\s+/).length;
  return Math.ceil(words / wordsPerMinute);
}
```

`splitWs` models `String.prototype.split(/\s+/)`: the string is cut at
every maximal run of `\s`-characters; a leading (trailing) run produces a
leading (trailing) empty piece, and splitting the empty string produces the
single piece `""` (the regex never matches the empty input, so the whole
input is returned).  The `skipping` flag of the worker is true while the
scanner is inside a separator run whose piece has already been emitted. -/

def splitWsAux : List Char → Bool → List Char → List (List Char)
  | [], true, _ => [[]]
  | [], false, cur => [cur.reverse]
  | c :: rest, true, _ =>
    if jsWhitespace c then splitWsAux rest true []
    else splitWsAux rest false [c]
  | c :: rest, false, cur =>
    if jsWhitespace c then cur.reverse :: splitWsAux rest true []
    else splitWsAux rest false (c :: cur)

def splitWs (l : List Char) : List (List Char) := splitWsAux l false []

/-- `Math.ceil(words / 200)` on the natural number `words` is the rounding
division `(words + 199) / 200`. -/
def calculateReadingTime (content : String) : Nat :=
  let wordsPerMinute := 200
  let words := (splitWs (jsTrim content.data)).length
  (words + (wordsPerMinute - 1)) / wordsPerMinute

/-! ## truncate (`helpers.ts`, lines 54–57)

```js
export function truncate(text: string, length: number): string {
  if (text.length <= length) return text;
  return text.slice(0, length).trim() + '...';
}
```
-/

def truncate (text : String) (length : Nat) : String :=
  if text.length ≤ length then text
  else ⟨dropEdges jsWhitespace (text.data.take length)⟩ ++ "..."

/-- Modelled from the spec's words (for comparison with `truncate`): "cut to
the limit, trim *trailing* whitespace, append an ellipsis marker" — i.e. only
the trailing run of whitespace is removed from the cut text. -/
def truncateSpec (text : String) (length : Nat) : String :=
  if text.length ≤ length then text
  else ⟨((text.data.take length).reverse.dropWhile jsWhitespace).reverse⟩ ++ "..."

/-! ## formatPrice / formatPriceRange (`helpers.ts`, lines 62–78)

```js
export function formatPrice(amount: number): string {
  return new Intl.NumberFormat('en-PH', {
    style: 'currency', currency: 'PHP',
    minimumFractionDigits: 0, maximumFractionDigits: 0,
  }).format(amount);
}
export function formatPriceRange(min: number, max: number): string {
  if (min === 0 && max === 0) return 'Free';
  if (min === max) return formatPrice(min);
  return `${formatPrice(min)} - ${formatPrice(max)}`;
}
```

`formatPrice` is modelled on integral amounts (every amount the claims
exercise): the `en-PH` / `PHP` / zero-fraction-digits format renders `n` as
a `'₱'` sign followed by the decimal digits of `|n|` in groups of three
separated by commas, with a leading `'-'` for negative amounts.
`groupDigits` inserts a comma after every third digit, working on the
reversed (least-significant-first) digit list. -/

def groupDigits : List Char → Nat → List Char
  | [], _ => []
  | c :: rest, k =>
    if 0 < k ∧ k % 3 = 0 then ',' :: c :: groupDigits rest (k + 1)
    else c :: groupDigits rest (k + 1)

def formatPrice (amount : Int) : String :=
  let digits := Nat.toDigits 10 amount.natAbs
  (if amount < 0 then "-" else "") ++ "₱" ++ ⟨(groupDigits digits.reverse 0).reverse⟩

def formatPriceRange (min max : Int) : String :=
  if min = 0 ∧ max = 0 then "Free"
  else if min = max then formatPrice min
  else formatPrice min ++ " - " ++ formatPrice max

/-! ## extractHeadings (`helpers.ts`, lines 98–112)

```js
export function extractHeadings(content: string) {
  const headingRegex = /^(#{2,4})\s+(.+)$/gm;
  const headings = [];
  let match;
  while ((match = headingRegex.exec(content)) !== null) {
    headings.push({
      level: match[1].length,
      text: match[2].trim(),
      slug: slugify(match[2]),
    });
  }
  return headings;
}
```

`tryHeadingMatch l` attempts the regex at the start of `l` (which must be a
`^` position): `#{2,4}` matches iff the maximal run of `'#'` has length 2–4
(with 5 or more, every backtracking choice is followed by another `'#'`
where `\s` is required); greedy `\s+` takes the maximal whitespace run —
which may cross line terminators, since `\s` matches them — and `(.+)$`
takes the maximal run of non-LineTerminator characters after it.  When that
run is empty (the input ends inside the whitespace run), the engine
backtracks `\s+` to the latest position whose character `.` can match,
keeping at least one separator character.  The returned triple is
(`match[1].length`, `match[2]`, rest of the input after the match).

`scanHeadingsAux` is the `exec` loop: it walks the input tracking whether
the current position is a `^` position (start of input or preceded by a
LineTerminator) and resumes after the end of each match.  The `fuel`
argument (initialised to the input length) only makes the recursion
structural; a successful match always consumes at least one character. -/

def tryHeadingMatch (l : List Char) : Option (Nat × List Char × List Char) :=
  let k := (l.takeWhile fun c => c.toNat == 35).length
  if 2 ≤ k ∧ k ≤ 4 then
    let afterHashes := l.drop k
    let w := afterHashes.takeWhile jsWhitespace
    let j := w.length
    if 1 ≤ j then
      match afterHashes.drop j with
      | [] =>
        match (List.range j).reverse.find?
            (fun i => decide (1 ≤ i) && !jsLineTerm (w.getD i ' ')) with
        | some jj =>
          let text := (w.drop jj).takeWhile fun c => !jsLineTerm c
          some (k, text, (w.drop jj).drop text.length)
        | none => none
      | c :: rest =>
        let text := (c :: rest).takeWhile fun d => !jsLineTerm d
        some (k, text, (c :: rest).drop text.length)
    else none
  else none

def scanHeadingsAux : Nat → List Char → Bool → List (Nat × List Char)
  | 0, _, _ => []
  | _ + 1, [], _ => []
  | fuel + 1, c :: rest, lineStart =>
    if lineStart then
      match tryHeadingMatch (c :: rest) with
      | some (k, text, restAfter) => (k, text) :: scanHeadingsAux fuel restAfter false
      | none => scanHeadingsAux fuel rest (jsLineTerm c)
    else scanHeadingsAux fuel rest (jsLineTerm c)

structure Heading where
  level : Nat
  text : String
  slug : String
deriving DecidableEq

def extractHeadings (content : String) : List Heading :=
  (scanHeadingsAux content.data.length content.data true).map
    (fun m => { level := m.1, text := ⟨jsTrim m.2⟩, slug := slugify ⟨m.2⟩ })

/-- Modelled from the spec's words (for comparison with `extractHeadings`):
a single *line* that "begins with 2, 3, or 4 '#' markers followed by
whitespace and non-empty text". -/
def lineContributesSpec (line : String) : Bool :=
  let l := line.data
  let k := (l.takeWhile fun c => c.toNat == 35).length
  let afterHashes := l.drop k
  let j := (afterHashes.takeWhile jsWhitespace).length
  decide (2 ≤ k) && decide (k ≤ 4) && decide (1 ≤ j) && !(afterHashes.drop j).isEmpty

/-- Split a character list at every `'\n'` (the accumulator holds the
current line, reversed). -/
def splitLines : List Char → List Char → List (List Char)
  | [], cur => [cur.reverse]
  | c :: rest, cur =>
    if c = '\n' then cur.reverse :: splitLines rest []
    else splitLines rest (c :: cur)

/-- The lines of a content string, split at `'\n'`. -/
def linesOf (content : String) : List String :=
  (splitLines content.data []).map (fun l => ⟨l⟩)

/-! ## JSON object model

JavaScript object literals are modelled as association lists of key/value
pairs in literal order, so that the *structural* presence or absence of a
key (the subject of the conditional-spread claims) is representable.  The
conditional spread `...(x && { k: v })` of the source becomes an `Option`
match contributing either `[(k, v)]` or `[]`, with the JavaScript
falsiness of the empty string made explicit for string-valued `x`. -/

inductive Json where
  | null : Json
  | str : String → Json
  | num : Int → Json
  | bool : Bool → Json
  | arr : List Json → Json
  | obj : List (String × Json) → Json

def jsonLookup : List (String × Json) → String → Option Json
  | [], _ => none
  | (k, v) :: rest, key => if k = key then some v else jsonLookup rest key

def Json.getKey : Json → String → Option Json
  | .obj fields, key => jsonLookup fields key
  | _, _ => none

/-- JavaScript truthiness of an optional string value (`undefined` and
`""` are falsy; any other string is truthy). -/
def jsTruthyStr : Option String → Bool
  | none => false
  | some s => !(s == "")

/-- A JSON value that is neither `null` nor the empty string. -/
def notNullOrEmptyStr : Json → Bool
  | .null => false
  | .str s => !(s == "")
  | _ => true

/-- Site metadata (`constants.ts`, `SITE`). -/
structure SiteMeta where
  name : String
  title : String
  description : String
  url : String
  author : String
  locale : String
  twitter : String
  ogImage : String

def SITE : SiteMeta where
  name := "Siquijor.xyz"
  title := "Siquijor Travel Guide"
  description := "Your complete Siquijor travel guide. Discover beaches, waterfalls, adventure activities, and authentic local experiences on the Island of Fire, Philippines."
  url := "https://siquijor.xyz"
  author := "Siquijor.xyz Editorial Team"
  locale := "en_US"
  twitter := "@siquijorxyz"
  ogImage := "/images/og-default.jpg"

/-- A JavaScript `Date` as consumed by the schema generators, which only
ever render it with `toISOString()`: the model carries that rendering. -/
structure JsDate where
  iso : String
deriving DecidableEq

def JsDate.toISOString (d : JsDate) : String := d.iso

/-! ## generateArticleSchema (`schema.ts`, lines 57–95) -/

structure ArticleSchemaInput where
  title : String
  description : String
  url : String
  image : String
  publishDate : JsDate
  modifiedDate : Option JsDate
  author : String
  category : Option String

def generateArticleSchema (data : ArticleSchemaInput) : Json :=
  Json.obj
    ([("@context", Json.str "https://schema.org"),
      ("@type", Json.str "Article"),
      ("headline", Json.str data.title),
      ("description", Json.str data.description),
      ("url", Json.str data.url),
      ("image", Json.str data.image),
      ("datePublished", Json.str data.publishDate.toISOString),
      ("dateModified", Json.str (data.modifiedDate.getD data.publishDate).toISOString),
      ("author", Json.obj [("@type", Json.str "Person"), ("name", Json.str data.author)]),
      ("publisher", Json.obj
        [("@type", Json.str "Organization"),
         ("name", Json.str SITE.name),
         ("url", Json.str SITE.url),
         ("logo", Json.obj [("@type", Json.str "ImageObject"),
                            ("url", Json.str (SITE.url ++ "/images/logo.png"))])]),
      ("mainEntityOfPage", Json.obj [("@type", Json.str "WebPage"),
                                     ("@id", Json.str data.url)])] ++
     (match data.category with
      | some c => if c = "" then [] else [("articleSection", Json.str c)]
      | none => []))

/-! ## generateTouristAttractionSchema (`schema.ts`, lines 100–143) -/

structure Coordinates where
  lat : Int
  lng : Int
deriving DecidableEq

structure TouristAttractionInput where
  name : String
  description : String
  url : String
  image : String
  address : String
  municipality : String
  coordinates : Option Coordinates
  openingHours : Option String
  priceRange : Option String

/-- The fixed object spread in for `openingHoursSpecification`: the
supplied `openingHours` string itself is never used. -/
def fixedOpeningHoursSpecification : Json :=
  Json.obj
    [("@type", Json.str "OpeningHoursSpecification"),
     ("dayOfWeek", Json.arr [Json.str "Monday", Json.str "Tuesday", Json.str "Wednesday",
                             Json.str "Thursday", Json.str "Friday", Json.str "Saturday",
                             Json.str "Sunday"]),
     ("opens", Json.str "06:00"),
     ("closes", Json.str "18:00")]

def generateTouristAttractionSchema (data : TouristAttractionInput) : Json :=
  Json.obj
    ([("@context", Json.str "https://schema.org"),
      ("@type", Json.str "TouristAttraction"),
      ("name", Json.str data.name),
      ("description", Json.str data.description),
      ("url", Json.str data.url),
      ("image", Json.str data.image),
      ("address", Json.obj
        [("@type", Json.str "PostalAddress"),
         ("addressLocality", Json.str data.municipality),
         ("addressRegion", Json.str "Siquijor"),
         ("addressCountry", Json.str "PH")])] ++
     (match data.coordinates with
      | some co => [("geo", Json.obj
          [("@type", Json.str "GeoCoordinates"),
           ("latitude", Json.num co.lat),
           ("longitude", Json.num co.lng)])]
      | none => []) ++
     (match data.openingHours with
      | some h => if h = "" then []
                  else [("openingHoursSpecification", fixedOpeningHoursSpecification)]
      | none => []) ++
     (match data.priceRange with
      | some p => if p = "" then [] else [("priceRange", Json.str p)]
      | none => []) ++
     [("isAccessibleForFree", Json.bool false),
      ("publicAccess", Json.bool true)])

/-! ## generateHowToSchema (`schema.ts`, lines 148–194) -/

structure HowToStepInput where
  name : String
  text : String
  image : Option String

structure EstimatedCost where
  min : Int
  max : Int
  currency : String

structure HowToInput where
  name : String
  description : String
  url : String
  image : String
  totalTime : Option String
  estimatedCost : Option EstimatedCost
  steps : List HowToStepInput
  tools : Option (List String)
  supplies : Option (List String)

/-- `data.steps.map((step, index) => ({ ..., position: index + 1, ... }))`,
with `i` the index of the head step. -/
def howToStepObjs : List HowToStepInput → Nat → List Json
  | [], _ => []
  | s :: rest, i =>
    Json.obj
      ([("@type", Json.str "HowToStep"),
        ("position", Json.num (Int.ofNat (i + 1))),
        ("name", Json.str s.name),
        ("text", Json.str s.text)] ++
       (match s.image with
        | some img => if img = "" then [] else [("image", Json.str img)]
        | none => [])) :: howToStepObjs rest (i + 1)

def generateHowToSchema (data : HowToInput) : Json :=
  Json.obj
    ([("@context", Json.str "https://schema.org"),
      ("@type", Json.str "HowTo"),
      ("name", Json.str data.name),
      ("description", Json.str data.description),
      ("url", Json.str data.url),
      ("image", Json.str data.image)] ++
     (match data.totalTime with
      | some t => if t = "" then [] else [("totalTime", Json.str t)]
      | none => []) ++
     (match data.estimatedCost with
      | some e => [("estimatedCost", Json.obj
          [("@type", Json.str "MonetaryAmount"),
           ("currency", Json.str e.currency),
           ("value", Json.str (toString e.min ++ "-" ++ toString e.max))])]
      | none => []) ++
     (match data.tools with
      | some ts => [("tool", Json.arr (ts.map fun t =>
          Json.obj [("@type", Json.str "HowToTool"), ("name", Json.str t)]))]
      | none => []) ++
     (match data.supplies with
      | some ss => [("supply", Json.arr (ss.map fun t =>
          Json.obj [("@type", Json.str "HowToSupply"), ("name", Json.str t)]))]
      | none => []) ++
     [("step", Json.arr (howToStepObjs data.steps 0))])

/-! ## The articles content schema (`content/config.ts`)

`parseArticle` is the validating parse of the zod articles schema: given a
raw (typed but unconstrained) front-matter record it checks every declared
constraint and, on success, returns the fully default-filled record.  The
closed enumerations are the literal word lists of the source; an enum field
stays a `String` in the parsed record and its membership is checked during
parsing, exactly as `z.enum` checks at runtime.  `publishDate` and
`updatedDate` appear as already-coerced dates (numeric timestamps); numeric
values are integral.  `z.string().url()` (which asks for WHATWG URL
parseability) is approximated by `jsUrlOk`; no claim depends on its exact
extent. -/

def categoryEnum : List String :=
  ["adventure", "photography", "seasonal", "local-life", "planning", "niche"]

def difficultyEnum : List String :=
  ["easy", "moderate", "challenging", "expert"]

def schemaTypeEnum : List String :=
  ["Article", "HowTo", "FAQPage", "TouristAttraction", "Place", "Review"]

def municipalityEnum : List String :=
  ["siquijor", "san-juan", "lazi", "maria", "enrique-villanueva", "larena",
   "island-wide", "regional"]

structure Author where
  name : String
  avatar : Option String
  bio : Option String
deriving DecidableEq

structure ImageMeta where
  src : String
  alt : String
  caption : Option String
  credit : Option String
deriving DecidableEq

structure FaqEntry where
  question : String
  answer : String
deriving DecidableEq

structure RawLocation where
  name : String
  municipality : String
  coordinates : Option Coordinates
  googleMapsUrl : Option String
deriving DecidableEq

structure RawPriceRange where
  min : Int
  max : Int
  currency : Option String
deriving DecidableEq

structure PriceRange where
  min : Int
  max : Int
  currency : String
deriving DecidableEq

structure RawArticle where
  title : String
  description : String
  keywords : List String
  ogTitle : Option String
  ogDescription : Option String
  ogImage : String
  schemaType : Option String
  category : String
  tags : List String
  publishDate : Int
  updatedDate : Option Int
  author : Option Author
  heroImage : ImageMeta
  gallery : Option (List ImageMeta)
  location : Option RawLocation
  difficulty : Option String
  duration : Option String
  bestTime : Option String
  priceRange : Option RawPriceRange
  requirements : Option (List String)
  gearList : Option (List String)
  faqs : Option (List FaqEntry)
  relatedArticles : Option (List String)
  draft : Option Bool
  featured : Option Bool
deriving DecidableEq

structure ParsedArticle where
  title : String
  description : String
  keywords : List String
  ogTitle : Option String
  ogDescription : Option String
  ogImage : String
  schemaType : String
  category : String
  tags : List String
  publishDate : Int
  updatedDate : Option Int
  author : Author
  heroImage : ImageMeta
  gallery : Option (List ImageMeta)
  location : Option RawLocation
  difficulty : Option String
  duration : Option String
  bestTime : Option String
  priceRange : Option PriceRange
  requirements : Option (List String)
  gearList : Option (List String)
  faqs : Option (List FaqEntry)
  relatedArticles : Option (List String)
  draft : Bool
  featured : Bool
deriving DecidableEq

/-- Approximates `z.string().url()`. -/
def jsUrlOk (s : String) : Bool := decide (2 ≤ (s.splitOn "://").length)

def defaultAuthor : Author := { name := "Siquijor.xyz Editorial Team", avatar := none, bio := none }

/-- Every constraint of the articles schema, checked on the raw record with
the zod defaults already substituted for absent fields (zod applies a
`.default` before validating the field). -/
def articleOk (r : RawArticle) : Bool :=
  decide (r.title.length ≤ 80) &&
  decide (r.description.length ≤ 200) &&
  decide (3 ≤ r.keywords.length) && decide (r.keywords.length ≤ 15) &&
  r.ogTitle.all (fun t => decide (t.length ≤ 70)) &&
  r.ogDescription.all (fun t => decide (t.length ≤ 200)) &&
  schemaTypeEnum.contains (r.schemaType.getD "Article") &&
  categoryEnum.contains r.category &&
  decide (1 ≤ r.tags.length) && decide (r.tags.length ≤ 10) &&
  r.location.all (fun loc =>
    municipalityEnum.contains loc.municipality && loc.googleMapsUrl.all jsUrlOk) &&
  r.difficulty.all (fun d => difficultyEnum.contains d)

def parseArticle (r : RawArticle) : Option ParsedArticle :=
  if articleOk r then
    some
      { title := r.title
        description := r.description
        keywords := r.keywords
        ogTitle := r.ogTitle
        ogDescription := r.ogDescription
        ogImage := r.ogImage
        schemaType := r.schemaType.getD "Article"
        category := r.category
        tags := r.tags
        publishDate := r.publishDate
        updatedDate := r.updatedDate
        author := r.author.getD defaultAuthor
        heroImage := r.heroImage
        gallery := r.gallery
        location := r.location
        difficulty := r.difficulty
        duration := r.duration
        bestTime := r.bestTime
        priceRange := r.priceRange.map
          (fun p => { min := p.min, max := p.max, currency := p.currency.getD "PHP" })
        requirements := r.requirements
        gearList := r.gearList
        faqs := r.faqs
        relatedArticles := r.relatedArticles
        draft := r.draft.getD false
        featured := r.featured.getD false }
  else none

/-- The constraints and defaults the specification asserts for every record
accepted by the articles schema. -/
def ParsedArticleProps (r : RawArticle) (a : ParsedArticle) : Prop :=
  a.title.length ≤ 80 ∧
  a.description.length ≤ 200 ∧
  3 ≤ a.keywords.length ∧ a.keywords.length ≤ 15 ∧
  1 ≤ a.tags.length ∧ a.tags.length ≤ 10 ∧
  a.category ∈ categoryEnum ∧
  a.schemaType ∈ schemaTypeEnum ∧
  (∀ d, a.difficulty = some d → d ∈ difficultyEnum) ∧
  (∀ loc, a.location = some loc → loc.municipality ∈ municipalityEnum) ∧
  (r.schemaType = none → a.schemaType = "Article") ∧
  (r.draft = none → a.draft = false) ∧
  (r.featured = none → a.featured = false) ∧
  (r.author = none → a.author = defaultAuthor) ∧
  (∀ p, r.priceRange = some p → p.currency = none →
    a.priceRange = some { min := p.min, max := p.max, currency := "PHP" })

/-! ## The RSS feed endpoint (`rss.xml.ts`)

```js
export async function GET(context) {
  const articles = await getCollection('articles', ({ data }) => !data.draft);
  const sortedArticles = articles.sort(
    (a, b) => b.data.publishDate.getTime() - a.data.publishDate.getTime()
  );
  return rss({ ..., items: sortedArticles.map((article) => ({ ... })), ... });
}
```

Collection entries carry a slug and the parsed data; `publishDate` is its
numeric timestamp (`getTime()`), so the comparator `b - a` orders by
publish date descending.  `Array.prototype.sort` is stable and consistent
with the comparator (ES2019), so it is modelled by the stable
`List.insertionSort` over the relation `dateGe a b ↔ b.publishDate ≤
a.publishDate`, which inserts each earlier-input element before the
later-input elements of equal key. -/

structure ArticleData where
  title : String
  description : String
  publishDate : Int
  draft : Bool
  category : String
  tags : List String
  author : Author
deriving DecidableEq

structure Entry where
  slug : String
  data : ArticleData
deriving DecidableEq

structure RssItem where
  title : String
  pubDate : Int
  description : String
  link : String
  categories : List String
  author : String
deriving DecidableEq

structure RssFeed where
  title : String
  description : String
  customData : String
  items : List RssItem
deriving DecidableEq

def rssItemOf (article : Entry) : RssItem where
  title := article.data.title
  pubDate := article.data.publishDate
  description := article.data.description
  link := "/articles/" ++ article.slug ++ "/"
  categories := article.data.category :: article.data.tags
  author := if article.data.author.name = "" then "Siquijor.xyz Editorial Team"
            else article.data.author.name

def dateGe (a b : Entry) : Prop := b.data.publishDate ≤ a.data.publishDate

instance : DecidableRel dateGe := fun a b =>
  inferInstanceAs (Decidable (b.data.publishDate ≤ a.data.publishDate))

instance : IsTotal Entry dateGe :=
  ⟨fun a b => Int.le_total b.data.publishDate a.data.publishDate⟩

instance : IsTrans Entry dateGe :=
  ⟨fun _ _ _ h h' => le_trans h' h⟩

def GET (allArticles : List Entry) : RssFeed :=
  let articles := allArticles.filter (fun a => !a.data.draft)
  let sortedArticles := List.insertionSort dateGe articles
  { title := SITE.name
    description := SITE.description
    customData := "<language>en-us</language>"
    items := sortedArticles.map rssItemOf }

/-! ## Concrete example inputs used by witnesses and counterexamples -/

/-- A minimal raw article: every optional field absent, every constraint met. -/
def articleRawExample : RawArticle where
  title := "Cliff Jumping at Salagdoong"
  description := "A guide to the cliff jumping platforms at Salagdoong Beach."
  keywords := ["siquijor", "cliff jumping", "salagdoong"]
  ogTitle := none
  ogDescription := none
  ogImage := "/images/og-salagdoong.jpg"
  schemaType := none
  category := "adventure"
  tags := ["beach"]
  publishDate := 1717200000000
  updatedDate := none
  author := none
  heroImage := { src := "/images/salagdoong.jpg", alt := "Salagdoong cliff",
                 caption := none, credit := none }
  gallery := none
  location := none
  difficulty := none
  duration := none
  bestTime := none
  priceRange := none
  requirements := none
  gearList := none
  faqs := none
  relatedArticles := none
  draft := none
  featured := none

/-- The record `parseArticle` produces for `articleRawExample`. -/
def articleParsedExample : ParsedArticle where
  title := "Cliff Jumping at Salagdoong"
  description := "A guide to the cliff jumping platforms at Salagdoong Beach."
  keywords := ["siquijor", "cliff jumping", "salagdoong"]
  ogTitle := none
  ogDescription := none
  ogImage := "/images/og-salagdoong.jpg"
  schemaType := "Article"
  category := "adventure"
  tags := ["beach"]
  publishDate := 1717200000000
  updatedDate := none
  author := defaultAuthor
  heroImage := { src := "/images/salagdoong.jpg", alt := "Salagdoong cliff",
                 caption := none, credit := none }
  gallery := none
  location := none
  difficulty := none
  duration := none
  bestTime := none
  priceRange := none
  requirements := none
  gearList := none
  faqs := none
  relatedArticles := none
  draft := false
  featured := false

/-- A non-draft entry published 2024-01-01 (timestamp in ms). -/
def entryJan : Entry where
  slug := "january-article"
  data := { title := "January", description := "Jan article",
            publishDate := 1704067200000, draft := false,
            category := "planning", tags := ["tips"], author := defaultAuthor }

/-- A non-draft entry published 2024-06-01, placed *after* `entryJan` in the
input list of the concrete feed example. -/
def entryJun : Entry where
  slug := "june-article"
  data := { title := "June", description := "Jun article",
            publishDate := 1717200000000, draft := false,
            category := "seasonal", tags := ["summer"], author := defaultAuthor }

/-- An article-schema input whose `category` is supplied but empty — the
JavaScript-falsy corner of the conditional spread. -/
def articleInputEmptyCategory : ArticleSchemaInput where
  title := "T"
  description := "D"
  url := "https://siquijor.xyz/articles/t/"
  image := "/images/t.jpg"
  publishDate := { iso := "2024-06-01T00:00:00.000Z" }
  modifiedDate := none
  author := "Siquijor.xyz Editorial Team"
  category := some ""

/-- An article-schema input with a non-empty category. -/
def articleInputWithCategory : ArticleSchemaInput where
  title := "T"
  description := "D"
  url := "https://siquijor.xyz/articles/t/"
  image := "/images/t.jpg"
  publishDate := { iso := "2024-06-01T00:00:00.000Z" }
  modifiedDate := none
  author := "Siquijor.xyz Editorial Team"
  category := some "adventure"

/-- A tourist-attraction input with every optional field absent. -/
def taInputBare : TouristAttractionInput where
  name := "Cambugahay Falls"
  description := "Tiered waterfall near Lazi."
  url := "https://siquijor.xyz/articles/cambugahay/"
  image := "/images/cambugahay.jpg"
  address := "Lazi"
  municipality := "lazi"
  coordinates := none
  openingHours := none
  priceRange := none

/-- The same attraction with all optional fields supplied (non-empty). -/
def taInputFull : TouristAttractionInput where
  name := "Cambugahay Falls"
  description := "Tiered waterfall near Lazi."
  url := "https://siquijor.xyz/articles/cambugahay/"
  image := "/images/cambugahay.jpg"
  address := "Lazi"
  municipality := "lazi"
  coordinates := some { lat := 9, lng := 123 }
  openingHours := some "Daily 7:30am-5pm"
  priceRange := some "₱50"

/-- The same attraction with a different (also truthy) `openingHours`. -/
def taInputOtherHours : TouristAttractionInput where
  name := "Cambugahay Falls"
  description := "Tiered waterfall near Lazi."
  url := "https://siquijor.xyz/articles/cambugahay/"
  image := "/images/cambugahay.jpg"
  address := "Lazi"
  municipality := "lazi"
  coordinates := some { lat := 9, lng := 123 }
  openingHours := some "24/7"
  priceRange := some "₱50"

/-- A how-to input with an empty step list. -/
def howToEmptyExample : HowToInput where
  name := "Empty"
  description := "No steps."
  url := "https://siquijor.xyz/howto/empty/"
  image := "/images/howto.jpg"
  totalTime := none
  estimatedCost := none
  steps := []
  tools := none
  supplies := none

/-- A how-to input with two steps. -/
def howToTwoStepExample : HowToInput where
  name := "Island Loop"
  description := "Ride the coastal road around the island."
  url := "https://siquijor.xyz/howto/island-loop/"
  image := "/images/loop.jpg"
  totalTime := some "PT5H"
  estimatedCost := none
  steps := [{ name := "Rent a motorbike", text := "Daily rentals in San Juan.", image := none },
            { name := "Follow the coastal road", text := "Keep the sea on your right.", image := none }]
  tools := none
  supplies := none

/-! # Theorems

First a toolkit of small lemmas about the character classes, `dropEdges`,
`collapseSeps`, `splitWs` and the stable sort; then one theorem per claim
of the specification (with a witness where the theorem has hypotheses). -/

theorem char_eq_of_toNat_eq {c d : Char} (h : c.toNat = d.toNat) : c = d :=
  Char.eq_of_val_eq (UInt32.toNat.inj h)

theorem dropWhile_head_not {p : Char → Bool} :
    ∀ {l : List Char} {c : Char}, (l.dropWhile p).head? = some c → p c = false := by
  intro l
  induction l with
  | nil => intro c h; simp [List.dropWhile] at h
  | cons a t ih =>
    intro c h
    rw [List.dropWhile_cons] at h
    split at h
    · exact ih h
    · rename_i ha
      simp only [List.head?_cons, Option.some.injEq] at h
      subst h
      exact Bool.not_eq_true _ ▸ ha

theorem mem_dropWhile {p : Char → Bool} :
    ∀ {l : List Char} {c : Char}, c ∈ l.dropWhile p → c ∈ l := by
  intro l
  induction l with
  | nil => intro c h; simp [List.dropWhile] at h
  | cons a t ih =>
    intro c h
    rw [List.dropWhile_cons] at h
    split at h
    · exact List.mem_cons_of_mem a (ih h)
    · exact h

theorem dropWhile_eq_self_of_head {p : Char → Bool} {l : List Char}
    (h : ∀ c, l.head? = some c → p c = false) : l.dropWhile p = l := by
  cases l with
  | nil => rfl
  | cons a t =>
    rw [List.dropWhile_cons, if_neg]
    simp [h a rfl]

theorem getLast?_dropWhile {p : Char → Bool} :
    ∀ {l : List Char} {c : Char}, (l.dropWhile p).getLast? = some c → l.getLast? = some c := by
  intro l
  induction l with
  | nil => intro c h; simp [List.dropWhile] at h
  | cons a t ih =>
    intro c h
    rw [List.dropWhile_cons] at h
    split at h
    · have ht := ih h
      cases t with
      | nil => simp at ht
      | cons b u => simpa [List.getLast?_cons_cons] using ht
    · exact h

theorem mem_dropEdges {p : Char → Bool} {l : List Char} {c : Char}
    (h : c ∈ dropEdges p l) : c ∈ l := by
  have h1 := mem_dropWhile h
  rw [List.mem_reverse] at h1
  have h2 := mem_dropWhile h1
  rwa [List.mem_reverse] at h2

theorem dropEdges_head_not {p : Char → Bool} {l : List Char} {c : Char}
    (h : (dropEdges p l).head? = some c) : p c = false :=
  dropWhile_head_not h

theorem dropEdges_getLast_not {p : Char → Bool} {l : List Char} {c : Char}
    (h : (dropEdges p l).getLast? = some c) : p c = false := by
  have h1 := getLast?_dropWhile h
  rw [List.getLast?_reverse] at h1
  exact dropWhile_head_not h1

theorem dropEdges_eq_self {p : Char → Bool} {l : List Char}
    (hh : ∀ c, l.head? = some c → p c = false)
    (hl : ∀ c, l.getLast? = some c → p c = false) : dropEdges p l = l := by
  unfold dropEdges
  have h1 : List.dropWhile p l.reverse = l.reverse := by
    refine dropWhile_eq_self_of_head ?_
    intro c hc
    rw [List.head?_reverse] at hc
    exact hl c hc
  rw [h1, List.reverse_reverse, dropWhile_eq_self_of_head hh]

theorem chain'_dropWhile {R : Char → Char → Prop} {p : Char → Bool} :
    ∀ {l : List Char}, List.Chain' R l → List.Chain' R (l.dropWhile p) := by
  intro l
  induction l with
  | nil => intro h; exact h
  | cons a t ih =>
    intro h
    rw [List.dropWhile_cons]
    split
    · exact ih h.tail
    · exact h

theorem chain'_dropEdges {R : Char → Char → Prop} {p : Char → Bool} {l : List Char}
    (h : List.Chain' R l) : List.Chain' R (dropEdges p l) := by
  unfold dropEdges
  apply chain'_dropWhile
  rw [List.chain'_reverse]
  apply chain'_dropWhile
  rw [List.chain'_reverse]
  exact List.Chain'.imp (fun a b hab => hab) h

/-! ### Character-class facts -/

theorem toNat_toLower (c : Char) :
    (Char.toLower c).toNat =
      if 65 ≤ c.toNat ∧ c.toNat ≤ 90 then c.toNat + 32 else c.toNat := by
  simp only [Char.toLower]
  by_cases h : 65 ≤ c.toNat ∧ c.toNat ≤ 90
  · rw [if_pos h, if_pos h]
    have hvalid : Nat.isValidChar (c.toNat + 32) := Or.inl (by omega)
    unfold Char.ofNat
    rw [dif_pos hvalid]
    rfl
  · rw [if_neg h, if_neg h]

theorem toLower_not_upper (c : Char) :
    ¬(65 ≤ (Char.toLower c).toNat ∧ (Char.toLower c).toNat ≤ 90) := by
  rw [toNat_toLower]
  split <;> omega

theorem slugChar_toLower_id {c : Char} (h : isSlugChar c = true) : Char.toLower c = c := by
  simp only [isSlugChar, Bool.or_eq_true, Bool.and_eq_true, decide_eq_true_eq,
    beq_iff_eq] at h
  unfold Char.toLower
  rw [if_neg (by omega)]

theorem slugChar_not_ws {c : Char} (h : isSlugChar c = true) : jsWhitespace c = false := by
  simp only [isSlugChar, Bool.or_eq_true, Bool.and_eq_true, decide_eq_true_eq,
    beq_iff_eq] at h
  rw [Bool.eq_false_iff]
  intro hw
  simp only [jsWhitespace, Bool.or_eq_true, Bool.and_eq_true, decide_eq_true_eq,
    beq_iff_eq] at hw
  omega

theorem slugChar_keep {c : Char} (h : isSlugChar c = true) : slugKeep c = true := by
  simp only [isSlugChar, Bool.or_eq_true, Bool.and_eq_true, decide_eq_true_eq,
    beq_iff_eq] at h
  simp only [slugKeep, jsWordChar, jsWhitespace, Bool.or_eq_true, Bool.and_eq_true,
    decide_eq_true_eq, beq_iff_eq]
  omega

theorem slugChar_sep_eq_hyphen {c : Char} (h : isSlugChar c = true)
    (hs : slugSep c = true) : c = '-' := by
  simp only [isSlugChar, Bool.or_eq_true, Bool.and_eq_true, decide_eq_true_eq,
    beq_iff_eq] at h
  simp only [slugSep, jsWhitespace, Bool.or_eq_true, Bool.and_eq_true, decide_eq_true_eq,
    beq_iff_eq] at hs
  refine char_eq_of_toNat_eq ?_
  have h45 : ('-').toNat = 45 := rfl
  omega

theorem slugChar_of_keep_not_sep {c : Char} (hk : slugKeep c = true)
    (hs : slugSep c = false) (hu : ¬(65 ≤ c.toNat ∧ c.toNat ≤ 90)) :
    isSlugChar c = true := by
  simp only [slugKeep, jsWordChar, jsWhitespace, Bool.or_eq_true, Bool.and_eq_true,
    decide_eq_true_eq, beq_iff_eq] at hk
  simp only [slugSep, jsWhitespace, Bool.or_eq_false_iff, Bool.and_eq_false_iff,
    beq_eq_false_iff_ne, decide_eq_false_iff_not, ne_eq] at hs
  simp only [isSlugChar, Bool.or_eq_true, Bool.and_eq_true, decide_eq_true_eq, beq_iff_eq]
  omega

theorem hyphen_isSlugChar : isSlugChar '-' = true := by decide

theorem hyphen_slugSep : slugSep '-' = true := by decide

theorem not_hyphen_of_not_sep {c : Char} (h : slugSep c = false) : c ≠ '-' := by
  intro hc
  subst hc
  rw [hyphen_slugSep] at h
  simp at h

/-! ### `collapseSeps` facts -/

theorem collapseSeps_cons_sep {b : Bool} {c : Char} {t : List Char} (h : slugSep c = true) :
    collapseSeps b (c :: t) =
      if b then collapseSeps true t else '-' :: collapseSeps true t := by
  cases b <;> simp [collapseSeps, h]

theorem collapseSeps_cons_not_sep {b : Bool} {c : Char} {t : List Char}
    (h : slugSep c = false) : collapseSeps b (c :: t) = c :: collapseSeps false t := by
  cases b <;> simp [collapseSeps, h]

theorem mem_collapseSeps :
    ∀ {l : List Char} {b : Bool} {c : Char}, c ∈ collapseSeps b l →
      c = '-' ∨ (c ∈ l ∧ slugSep c = false) := by
  intro l
  induction l with
  | nil => intro b c h; simp [collapseSeps] at h
  | cons a t ih =>
    intro b c h
    by_cases ha : slugSep a = true
    · rw [collapseSeps_cons_sep ha] at h
      cases b with
      | true =>
        rw [if_pos rfl] at h
        rcases ih h with h' | ⟨hmem, hsep⟩
        · exact Or.inl h'
        · exact Or.inr ⟨List.mem_cons_of_mem a hmem, hsep⟩
      | false =>
        rw [if_neg (by simp)] at h
        rcases List.mem_cons.mp h with h' | h'
        · exact Or.inl h'
        · rcases ih h' with h'' | ⟨hmem, hsep⟩
          · exact Or.inl h''
          · exact Or.inr ⟨List.mem_cons_of_mem a hmem, hsep⟩
    · rw [Bool.not_eq_true] at ha
      rw [collapseSeps_cons_not_sep ha] at h
      rcases List.mem_cons.mp h with h' | h'
      · exact Or.inr ⟨h' ▸ List.mem_cons_self a t, h' ▸ ha⟩
      · rcases ih h' with h'' | ⟨hmem, hsep⟩
        · exact Or.inl h''
        · exact Or.inr ⟨List.mem_cons_of_mem a hmem, hsep⟩

theorem head_collapseSeps_true :
    ∀ {l : List Char} {c : Char}, (collapseSeps true l).head? = some c →
      slugSep c = false := by
  intro l
  induction l with
  | nil => intro c h; simp [collapseSeps] at h
  | cons a t ih =>
    intro c h
    by_cases ha : slugSep a = true
    · rw [collapseSeps_cons_sep ha, if_pos rfl] at h
      exact ih h
    · rw [Bool.not_eq_true] at ha
      rw [collapseSeps_cons_not_sep ha, List.head?_cons] at h
      rw [Option.some.injEq] at h
      exact h ▸ ha

/-- No two adjacent characters of a `collapseSeps` output are both hyphens. -/
theorem chain'_collapseSeps :
    ∀ {l : List Char} {b : Bool},
      List.Chain' (fun x y => ¬(x = '-' ∧ y = '-')) (collapseSeps b l) := by
  intro l
  induction l with
  | nil => intro b; simp [collapseSeps]
  | cons a t ih =>
    intro b
    by_cases ha : slugSep a = true
    · rw [collapseSeps_cons_sep ha]
      cases b with
      | true => rw [if_pos rfl]; exact ih
      | false =>
        rw [if_neg (by simp)]
        refine List.chain'_cons'.mpr ⟨?_, ih⟩
        intro y hy
        rintro ⟨-, rfl⟩
        have hy' : (collapseSeps true t).head? = some '-' := Option.mem_def.mp hy
        have hsep := head_collapseSeps_true hy'
        rw [hyphen_slugSep] at hsep
        simp at hsep
    · rw [Bool.not_eq_true] at ha
      rw [collapseSeps_cons_not_sep ha]
      refine List.chain'_cons'.mpr ⟨?_, ih⟩
      intro y hy
      rintro ⟨rfl, -⟩
      exact not_hyphen_of_not_sep ha rfl

/-- On a list already in slug normal form (only slug characters, no two
adjacent hyphens, and — when the scanner believes it is inside a run — no
leading hyphen), `collapseSeps` is the identity. -/
theorem collapseSeps_id :
    ∀ {l : List Char} {b : Bool},
      (∀ c ∈ l, isSlugChar c = true) →
      List.Chain' (fun x y => ¬(x = '-' ∧ y = '-')) l →
      (b = true → ∀ c, l.head? = some c → c ≠ '-') →
      collapseSeps b l = l := by
  intro l
  induction l with
  | nil => intro b _ _ _; rfl
  | cons a t ih =>
    intro b hmem hchain hb
    have hsa := hmem a (List.mem_cons_self a t)
    by_cases ha : slugSep a = true
    · have haH : a = '-' := slugChar_sep_eq_hyphen hsa ha
      cases b with
      | true => exact absurd haH (hb rfl a rfl)
      | false =>
        rw [collapseSeps_cons_sep ha, if_neg (by simp), ← haH]
        congr 1
        refine ih (fun c hc => hmem c (List.mem_cons_of_mem a hc)) hchain.tail ?_
        intro _ c hc hcH
        have hh := (List.chain'_cons'.mp hchain).1 c (Option.mem_def.mpr hc)
        exact hh ⟨haH, hcH⟩
    · rw [Bool.not_eq_true] at ha
      rw [collapseSeps_cons_not_sep ha]
      congr 1
      refine ih (fun c hc => hmem c (List.mem_cons_of_mem a hc)) hchain.tail ?_
      intro hfalse
      simp at hfalse

/-! ### slugify: normal form and idempotence -/

theorem map_id_of_mem {f : Char → Char} :
    ∀ {l : List Char}, (∀ c ∈ l, f c = c) → l.map f = l := by
  intro l
  induction l with
  | nil => intro _; rfl
  | cons a t ih =>
    intro h
    rw [List.map_cons, h a (List.mem_cons_self a t),
      ih (fun c hc => h c (List.mem_cons_of_mem a hc))]

theorem mem_of_getLast? {l : List Char} {c : Char} (h : l.getLast? = some c) : c ∈ l := by
  rw [List.getLast?_eq_head?_reverse] at h
  have := List.mem_of_mem_head? (Option.mem_def.mpr h)
  rwa [List.mem_reverse] at this

/-- Every character of a `slugifyList` output is a lowercase ASCII
alphanumeric or a hyphen. -/
theorem slugifyList_mem {l : List Char} :
    ∀ c ∈ slugifyList l, isSlugChar c = true := by
  intro c hc
  have hc1 := mem_dropEdges hc
  rcases mem_collapseSeps hc1 with h | ⟨hmem, hsep⟩
  · exact h ▸ hyphen_isSlugChar
  · have hf := List.mem_filter.mp hmem
    have hkeep : slugKeep c = true := hf.2
    have ht := mem_dropEdges hf.1
    rcases List.mem_map.mp ht with ⟨c', -, hc'⟩
    exact slugChar_of_keep_not_sep hkeep hsep (hc' ▸ toLower_not_upper c')

theorem slugifyList_chain' {l : List Char} :
    List.Chain' (fun x y => ¬(x = '-' ∧ y = '-')) (slugifyList l) :=
  chain'_dropEdges chain'_collapseSeps

theorem slugifyList_head {l : List Char} {c : Char}
    (h : (slugifyList l).head? = some c) : isHyphen c = false :=
  dropEdges_head_not h

theorem slugifyList_getLast {l : List Char} {c : Char}
    (h : (slugifyList l).getLast? = some c) : isHyphen c = false :=
  dropEdges_getLast_not h

/-- `slugifyList` is the identity on its own normal form. -/
theorem slugifyList_id {l : List Char}
    (hmem : ∀ c ∈ l, isSlugChar c = true)
    (hchain : List.Chain' (fun x y => ¬(x = '-' ∧ y = '-')) l)
    (hhead : ∀ c, l.head? = some c → isHyphen c = false)
    (hlast : ∀ c, l.getLast? = some c → isHyphen c = false) :
    slugifyList l = l := by
  unfold slugifyList
  have h1 : l.map Char.toLower = l :=
    map_id_of_mem (fun c hc => slugChar_toLower_id (hmem c hc))
  have h2 : jsTrim l = l := by
    refine dropEdges_eq_self ?_ ?_
    · intro c hc
      exact slugChar_not_ws (hmem c (List.mem_of_mem_head? (Option.mem_def.mpr hc)))
    · intro c hc
      exact slugChar_not_ws (hmem c (mem_of_getLast? hc))
  have h3 : List.filter slugKeep l = l :=
    List.filter_eq_self.mpr (fun a ha => slugChar_keep (hmem a ha))
  have h4 : collapseSeps false l = l := by
    refine collapseSeps_id hmem hchain ?_
    intro hfalse
    simp at hfalse
  rw [h1]
  show dropEdges isHyphen (collapseSeps false (List.filter slugKeep (jsTrim l))) = l
  rw [h2, h3, h4]
  exact dropEdges_eq_self hhead hlast

/-- **C3.** For every string `s`, `slugify` is idempotent, its output
contains only lowercase ASCII alphanumerics and hyphens, and the output has
no leading and no trailing hyphen. -/
theorem slugify_idempotent_charset (s : String) :
    slugify (slugify s) = slugify s ∧
    (slugify s).data.all isSlugChar = true ∧
    (slugify s).data.head?.all (fun c => !isHyphen c) = true ∧
    (slugify s).data.getLast?.all (fun c => !isHyphen c) = true := by
  have hdata : (slugify s).data = slugifyList s.data := rfl
  refine ⟨?_, ?_, ?_, ?_⟩
  · show (⟨slugifyList (slugify s).data⟩ : String) = slugify s
    rw [hdata]
    have hid : slugifyList (slugifyList s.data) = slugifyList s.data :=
      slugifyList_id slugifyList_mem slugifyList_chain'
        (fun c hc => slugifyList_head hc) (fun c hc => slugifyList_getLast hc)
    rw [hid]
    rfl
  · rw [hdata, List.all_eq_true]
    exact fun c hc => slugifyList_mem c hc
  · rw [hdata]
    cases hh : (slugifyList s.data).head? with
    | none => rfl
    | some c =>
      show (!isHyphen c) = true
      rw [slugifyList_head hh]
      rfl
  · rw [hdata]
    cases hh : (slugifyList s.data).getLast? with
    | none => rfl
    | some c =>
      show (!isHyphen c) = true
      rw [slugifyList_getLast hh]
      rfl

/-! ### Reading time (C4) -/

/-- `split` always returns at least one piece (for the empty string it
returns the single piece `""`). -/
theorem splitWsAux_ne_nil :
    ∀ (l : List Char) (b : Bool) (cur : List Char), splitWsAux l b cur ≠ [] := by
  intro l
  induction l with
  | nil => intro b cur; cases b <;> simp [splitWsAux]
  | cons c rest ih =>
    intro b cur
    cases b with
    | true =>
      show (if jsWhitespace c then splitWsAux rest true [] else splitWsAux rest false [c]) ≠ []
      split
      · exact ih true []
      · exact ih false [c]
    | false =>
      show (if jsWhitespace c then cur.reverse :: splitWsAux rest true []
            else splitWsAux rest false (c :: cur)) ≠ []
      split
      · simp
      · exact ih false (c :: cur)

/-- **C4 (counterexample).** The claim states `calculateReadingTime "" = 0`;
on the code, `"".trim().split(/\s+/)` is `[""]`, of length 1, so the result
is `Math.ceil(1 / 200) = 1`, not 0. -/
theorem calculateReadingTime_empty_cex :
    calculateReadingTime "" = 1 ∧ (calculateReadingTime "" == 0) = false := by
  constructor <;> rfl

/-- **C4 (amended).** `calculateReadingTime` returns the number of
`split(/\s+/)` pieces of the trimmed body divided by 200 and rounded up;
that count is never 0 (so the result is never 0): the empty string yields
one (empty) piece and hence 1 minute, and a body of 400 whitespace-separated
words yields 2. -/
theorem calculateReadingTime_amended :
    (∀ content : String, 1 ≤ calculateReadingTime content) ∧
    calculateReadingTime "" = 1 ∧
    calculateReadingTime (String.intercalate " " (List.replicate 400 "word")) = 2 := by
  refine ⟨?_, rfl, by decide⟩
  intro content
  show 1 ≤ ((splitWs (jsTrim content.data)).length + 199) / 200
  have h := splitWsAux_ne_nil (jsTrim content.data) false []
  have hlen : 1 ≤ (splitWs (jsTrim content.data)).length := by
    unfold splitWs
    cases hx : splitWsAux (jsTrim content.data) false [] with
    | nil => exact absurd hx h
    | cons a t => simp
  omega

/-! ### Truncation (C7) -/

/-- **C7 (counterexample).** The claim states that only *trailing*
whitespace is removed from the cut text; the code calls `trim()`, which
also removes leading whitespace: on `truncate("  abcdef", 5)` the cut text
is `"  abc"` and the code returns `"abc..."`, not `"  abc..."`. -/
theorem truncate_trim_cex :
    truncate "  abcdef" 5 = "abc..." ∧
    truncateSpec "  abcdef" 5 = "  abc..." ∧
    (truncate "  abcdef" 5 == truncateSpec "  abcdef" 5) = false := by
  refine ⟨rfl, rfl, ?_⟩
  rfl

/-- **C7 (amended).** If the text length is within the limit the text is
returned unchanged; otherwise the first `limit` characters are returned
with *leading and* trailing whitespace removed, followed by `"..."` (the
retained core starts and ends with non-whitespace). -/
theorem truncate_amended (text : String) (limit : Nat) :
    (text.length ≤ limit → truncate text limit = text) ∧
    (limit < text.length →
      truncate text limit = (⟨dropEdges jsWhitespace (text.data.take limit)⟩ : String) ++ "..." ∧
      (dropEdges jsWhitespace (text.data.take limit)).head?.all (fun c => !jsWhitespace c) = true ∧
      (dropEdges jsWhitespace (text.data.take limit)).getLast?.all (fun c => !jsWhitespace c) = true) := by
  constructor
  · intro h
    unfold truncate
    rw [if_pos h]
  · intro h
    refine ⟨?_, ?_, ?_⟩
    · unfold truncate
      rw [if_neg (by omega)]
    · cases hh : (dropEdges jsWhitespace (text.data.take limit)).head? with
      | none => rfl
      | some c =>
        show (!jsWhitespace c) = true
        rw [dropEdges_head_not hh]
        rfl
    · cases hh : (dropEdges jsWhitespace (text.data.take limit)).getLast? with
      | none => rfl
      | some c =>
        show (!jsWhitespace c) = true
        rw [dropEdges_getLast_not hh]
        rfl

/-- Witness for `truncate_amended` at `text = "  abcdef"`, `limit = 5`. -/
theorem truncate_amended_witness :
    truncate "  abcdef" 5 = (⟨dropEdges jsWhitespace ("  abcdef".data.take 5)⟩ : String) ++ "..." ∧
    truncate "  abc" 9 = "  abc" :=
  ⟨((truncate_amended "  abcdef" 5).2 (by decide)).1,
   (truncate_amended "  abc" 9).1 (by decide)⟩

/-! ### Price ranges (C9) -/

/-- **C9.** `formatPriceRange(0,0)` is `"Free"`; a range with equal nonzero
bounds collapses to the single formatted price; distinct bounds render as
`"min - max"` with both bounds formatted by `formatPrice`. -/
theorem formatPriceRange_contract :
    formatPriceRange 0 0 = "Free" ∧
    (∀ n : Int, n ≠ 0 → formatPriceRange n n = formatPrice n) ∧
    (∀ a b : Int, a ≠ b →
      formatPriceRange a b = formatPrice a ++ " - " ++ formatPrice b) := by
  refine ⟨rfl, ?_, ?_⟩
  · intro n hn
    unfold formatPriceRange
    rw [if_neg (fun h => hn h.1), if_pos rfl]
  · intro a b hab
    unfold formatPriceRange
    rw [if_neg (fun h => hab (h.1.trans h.2.symm)), if_neg hab]

/-- Witness for `formatPriceRange_contract` at `100` and `(50, 150)`. -/
theorem formatPriceRange_contract_witness :
    formatPriceRange 0 0 = "Free" ∧
    formatPriceRange 100 100 = formatPrice 100 ∧
    formatPriceRange 50 150 = formatPrice 50 ++ " - " ++ formatPrice 150 :=
  ⟨formatPriceRange_contract.1,
   formatPriceRange_contract.2.1 100 (by decide),
   formatPriceRange_contract.2.2 50 150 (by decide)⟩

/-! ### HowTo step positions (C6) -/

theorem howToStepObjs_length :
    ∀ (steps : List HowToStepInput) (i : Nat),
      (howToStepObjs steps i).length = steps.length := by
  intro steps
  induction steps with
  | nil => intro i; rfl
  | cons s rest ih => intro i; simp [howToStepObjs, ih]

theorem howToStepObjs_positions :
    ∀ (steps : List HowToStepInput) (i : Nat),
      (howToStepObjs steps i).map (fun j => j.getKey "position") =
        (List.range steps.length).map (fun n => some (Json.num (Int.ofNat (i + n + 1)))) := by
  intro steps
  induction steps with
  | nil => intro i; rfl
  | cons s rest ih =>
    intro i
    show (Json.obj _).getKey "position" ::
        (howToStepObjs rest (i + 1)).map (fun j => j.getKey "position") = _
    rw [List.length_cons, List.range_succ_eq_map, List.map_cons, List.map_map, ih (i + 1)]
    refine congrArg₂ _ ?_ ?_
    · simp [Json.getKey, jsonLookup]
    · refine List.map_congr_left ?_
      intro n _
      show some (Json.num (Int.ofNat (i + 1 + n + 1))) =
        some (Json.num (Int.ofNat (i + (n + 1) + 1)))
      rw [show i + 1 + n + 1 = i + (n + 1) + 1 from by omega]

theorem howToStepObjs_names :
    ∀ (steps : List HowToStepInput) (i : Nat),
      (howToStepObjs steps i).map (fun j => j.getKey "name") =
        steps.map (fun s => some (Json.str s.name)) := by
  intro steps
  induction steps with
  | nil => intro i; rfl
  | cons s rest ih =>
    intro i
    show (Json.obj _).getKey "name" ::
        (howToStepObjs rest (i + 1)).map (fun j => j.getKey "name") = _
    rw [List.map_cons, ih (i + 1)]
    refine congrArg₂ _ ?_ rfl
    simp [Json.getKey, jsonLookup]

theorem howToStepObjs_texts :
    ∀ (steps : List HowToStepInput) (i : Nat),
      (howToStepObjs steps i).map (fun j => j.getKey "text") =
        steps.map (fun s => some (Json.str s.text)) := by
  intro steps
  induction steps with
  | nil => intro i; rfl
  | cons s rest ih =>
    intro i
    show (Json.obj _).getKey "text" ::
        (howToStepObjs rest (i + 1)).map (fun j => j.getKey "text") = _
    rw [List.map_cons, ih (i + 1)]
    refine congrArg₂ _ ?_ rfl
    simp [Json.getKey, jsonLookup]

/-- **C6.** For every input, the `step` array of `generateHowToSchema` has
exactly one entry per input step, in input order; the entry at index `i`
carries `position = i + 1` (so numbering is 1-based following list order)
and the step's name and text; an empty step list yields an empty `step`
array. -/
theorem generateHowToSchema_step_positions :
    (∀ d : HowToInput, ∃ arr : List Json,
      Json.getKey (generateHowToSchema d) "step" = some (Json.arr arr) ∧
      arr.length = d.steps.length ∧
      arr.map (fun j => Json.getKey j "position") =
        (List.range d.steps.length).map (fun i => some (Json.num (Int.ofNat (i + 1)))) ∧
      arr.map (fun j => Json.getKey j "name") =
        d.steps.map (fun s => some (Json.str s.name)) ∧
      arr.map (fun j => Json.getKey j "text") =
        d.steps.map (fun s => some (Json.str s.text))) ∧
    Json.getKey (generateHowToSchema howToEmptyExample) "step" = some (Json.arr []) := by
  constructor
  · intro d
    refine ⟨howToStepObjs d.steps 0, ?_, howToStepObjs_length d.steps 0, ?_,
      howToStepObjs_names d.steps 0, howToStepObjs_texts d.steps 0⟩
    · rcases d with ⟨nm, ds, u, im, tt, ec, st, tl, sp⟩
      rcases tt with _ | t <;> rcases ec with _ | e <;> rcases tl with _ | ts <;>
        rcases sp with _ | ss <;>
        simp [generateHowToSchema, Json.getKey, jsonLookup] <;>
        split <;> simp [jsonLookup]
    · rw [howToStepObjs_positions d.steps 0]
      refine List.map_congr_left ?_
      intro n _
      rw [show 0 + n + 1 = n + 1 from by omega]
  · rfl

/-! ### Conditional optional keys in the generators (C5) -/

/-- **C5 (counterexample).** The claim's "iff the optional input is
supplied" fails at a supplied-but-empty string: the conditional spread
`...(data.category && { articleSection: ... })` tests JavaScript
truthiness, and the empty string is falsy, so with `category = some ""`
(supplied) the `articleSection` key is structurally absent. -/
theorem generate_schema_optional_keys_cex :
    articleInputEmptyCategory.category.isSome = true ∧
    (generateArticleSchema articleInputEmptyCategory).getKey "articleSection" = none := by
  constructor <;> rfl

/-- **C5 (amended).** A generator emits the key for an optional field iff
the corresponding input is *truthy*: for the object-valued `coordinates`,
iff it is supplied; for the string-valued `category`, `openingHours` and
`priceRange`, iff the input is supplied and non-empty.  An emitted value is
never `null` and never the empty string. -/
theorem generate_schema_optional_keys (dA : ArticleSchemaInput) (dT : TouristAttractionInput) :
    ((generateArticleSchema dA).getKey "articleSection").isSome = jsTruthyStr dA.category ∧
    ((generateTouristAttractionSchema dT).getKey "geo").isSome = dT.coordinates.isSome ∧
    ((generateTouristAttractionSchema dT).getKey "openingHoursSpecification").isSome =
      jsTruthyStr dT.openingHours ∧
    ((generateTouristAttractionSchema dT).getKey "priceRange").isSome =
      jsTruthyStr dT.priceRange ∧
    ((generateArticleSchema dA).getKey "articleSection").all notNullOrEmptyStr = true ∧
    ((generateTouristAttractionSchema dT).getKey "priceRange").all notNullOrEmptyStr = true := by
  obtain ⟨t1, d1, u1, i1, p1, m1, a1, cat⟩ := dA
  obtain ⟨n2, d2, u2, i2, ad2, mu2, co, oh, pr⟩ := dT
  refine ⟨?_, ?_, ?_, ?_, ?_, ?_⟩ <;>
    rcases cat with _ | c <;> rcases co with _ | g <;> rcases oh with _ | h <;>
      rcases pr with _ | p <;>
      simp only [generateArticleSchema, generateTouristAttractionSchema, Json.getKey,
        jsTruthyStr] <;>
      (try split_ifs) <;>
      simp_all [jsonLookup, notNullOrEmptyStr]

/-! ### The openingHours value is never used (C10) -/

/-- **C10.** Whenever `openingHours` is supplied and non-empty, the emitted
`openingHoursSpecification` is the fixed constant (all seven days, opens
06:00, closes 18:00); two truthy inputs therefore yield identical
`openingHoursSpecification` values, and replacing one truthy
`openingHours` string by another leaves the whole output unchanged — the
input string only controls the key's presence, never its content. -/
theorem touristAttraction_openingHours_constant
    (d1 d2 : TouristAttractionInput) (s1 s2 : String)
    (h1 : d1.openingHours = some s1) (hs1 : s1 ≠ "")
    (h2 : d2.openingHours = some s2) (hs2 : s2 ≠ "") :
    (generateTouristAttractionSchema d1).getKey "openingHoursSpecification" =
      some fixedOpeningHoursSpecification ∧
    (generateTouristAttractionSchema d1).getKey "openingHoursSpecification" =
      (generateTouristAttractionSchema d2).getKey "openingHoursSpecification" ∧
    generateTouristAttractionSchema d1 =
      generateTouristAttractionSchema { d1 with openingHours := some s2 } := by
  have key : ∀ (d : TouristAttractionInput) (s : String), d.openingHours = some s → s ≠ "" →
      (generateTouristAttractionSchema d).getKey "openingHoursSpecification" =
        some fixedOpeningHoursSpecification := by
    intro d s h hs
    obtain ⟨n, ds, u, im, ad, mu, co, oh, pr⟩ := d
    simp only at h
    subst h
    rcases co with _ | g <;>
      simp [generateTouristAttractionSchema, Json.getKey, jsonLookup, hs]
  refine ⟨key d1 s1 h1 hs1, (key d1 s1 h1 hs1).trans (key d2 s2 h2 hs2).symm, ?_⟩
  obtain ⟨n, ds, u, im, ad, mu, co, oh, pr⟩ := d1
  simp only at h1
  subst h1
  simp [generateTouristAttractionSchema, hs1, hs2]

/-- Witness for `touristAttraction_openingHours_constant` at the two
concrete attraction inputs whose `openingHours` strings differ. -/
theorem touristAttraction_openingHours_constant_witness :
    (generateTouristAttractionSchema taInputFull).getKey "openingHoursSpecification" =
      some fixedOpeningHoursSpecification ∧
    (generateTouristAttractionSchema taInputFull).getKey "openingHoursSpecification" =
      (generateTouristAttractionSchema taInputOtherHours).getKey "openingHoursSpecification" ∧
    generateTouristAttractionSchema taInputFull =
      generateTouristAttractionSchema { taInputFull with openingHours := some "24/7" } :=
  touristAttraction_openingHours_constant taInputFull taInputOtherHours
    "Daily 7:30am-5pm" "24/7" rfl (by decide) rfl (by decide)

/-! ### The RSS feed (C2)

Stability of the sort is expressed as a filter identity: for every publish
date `k`, the subsequence of items with that date is exactly the
subsequence of the (draft-filtered) input with that date, in input order. -/

theorem filter_orderedInsert (k : Int) (x : Entry) :
    ∀ l : List Entry,
      (List.orderedInsert dateGe x l).filter (fun e => e.data.publishDate == k) =
        if x.data.publishDate == k then
          x :: l.filter (fun e => e.data.publishDate == k)
        else l.filter (fun e => e.data.publishDate == k) := by
  intro l
  induction l with
  | nil =>
    show List.filter _ [x] = _
    rw [List.filter_cons]
  | cons y t ih =>
    show (if dateGe x y then x :: y :: t else y :: List.orderedInsert dateGe x t).filter _ = _
    by_cases hxy : dateGe x y
    · rw [if_pos hxy, List.filter_cons]
    · rw [if_neg hxy, List.filter_cons, ih, List.filter_cons]
      by_cases hqx : (x.data.publishDate == k) = true <;>
        by_cases hqy : (y.data.publishDate == k) = true
      · exfalso
        have hx : x.data.publishDate = k := by simpa using hqx
        have hy : y.data.publishDate = k := by simpa using hqy
        exact hxy (le_of_eq (hy.trans hx.symm))
      · simp [hqx, hqy]
      · simp [hqx, hqy]
      · simp [hqx, hqy]

theorem filter_insertionSort (k : Int) :
    ∀ l : List Entry,
      (List.insertionSort dateGe l).filter (fun e => e.data.publishDate == k) =
        l.filter (fun e => e.data.publishDate == k) := by
  intro l
  induction l with
  | nil => rfl
  | cons a t ih =>
    show (List.orderedInsert dateGe a (List.insertionSort dateGe t)).filter _ = _
    rw [filter_orderedInsert, ih, List.filter_cons]

/-- **C2.** The feed contains exactly one item per non-draft input article
and none for drafts (the items are a permutation of the draft-filtered
input's items); items are sorted by publish date descending; ties keep the
input order (the filter identity for every date `k`); and for the concrete
pair published 2024-01-01 / 2024-06-01 (in that input order), the June
article comes first. -/
theorem rss_feed_drafts_sorted_stable (arts : List Entry) (k : Int) :
    ((GET arts).items).Perm ((arts.filter (fun a => !a.data.draft)).map rssItemOf) ∧
    List.Sorted (fun i j : RssItem => j.pubDate ≤ i.pubDate) (GET arts).items ∧
    ((GET arts).items).filter (fun i => i.pubDate == k) =
      ((arts.filter (fun a => !a.data.draft)).map rssItemOf).filter
        (fun i => i.pubDate == k) ∧
    (GET [entryJan, entryJun]).items.map (fun i => i.pubDate) =
      [entryJun.data.publishDate, entryJan.data.publishDate] := by
  have hitems : (GET arts).items =
      (List.insertionSort dateGe (arts.filter (fun a => !a.data.draft))).map rssItemOf := rfl
  refine ⟨?_, ?_, ?_, by decide⟩
  · rw [hitems]
    exact (List.perm_insertionSort dateGe _).map rssItemOf
  · rw [hitems]
    refine List.Pairwise.map rssItemOf ?_ (List.sorted_insertionSort dateGe _)
    intro a b hab
    exact hab
  · rw [hitems, List.filter_map, List.filter_map]
    refine congrArg _ ?_
    exact filter_insertionSort k _

/-! ### The articles schema validator (C1) -/

/-- **C1.** Every record accepted by the articles schema satisfies all the
declared constraints (title ≤ 80, description ≤ 200, 3–15 keywords, 1–10
tags, category / schema type / difficulty / municipality in their closed
enumerations), and every absent optional field received its documented
default (`schemaType = "Article"`, `draft = false`, `featured = false`,
the editorial-team author, and `currency = "PHP"` for a price range given
without one). -/
theorem parseArticle_valid (r : RawArticle) (a : ParsedArticle)
    (h : parseArticle r = some a) : ParsedArticleProps r a := by
  unfold parseArticle at h
  split at h
  case isFalse => simp at h
  case isTrue hok =>
    rw [Option.some.injEq] at h
    subst h
    simp only [articleOk, Bool.and_eq_true, decide_eq_true_eq] at hok
    obtain ⟨⟨⟨⟨⟨⟨⟨⟨⟨⟨⟨h1, h2⟩, h3⟩, h4⟩, h5⟩, h6⟩, h7⟩, h8⟩, h9⟩, h10⟩, h11⟩, h12⟩ := hok
    refine ⟨h1, h2, h3, h4, h9, h10, List.elem_iff.mp h8, List.elem_iff.mp h7,
      ?_, ?_, ?_, ?_, ?_, ?_, ?_⟩
    · intro d hd
      have hd' : r.difficulty = some d := hd
      rw [hd'] at h12
      have h12' : difficultyEnum.contains d = true := h12
      exact List.elem_iff.mp h12'
    · intro loc hloc
      have hloc' : r.location = some loc := hloc
      rw [hloc'] at h11
      have h11' : (municipalityEnum.contains loc.municipality &&
          Option.all jsUrlOk loc.googleMapsUrl) = true := h11
      rw [Bool.and_eq_true] at h11'
      exact List.elem_iff.mp h11'.1
    · intro hst
      show r.schemaType.getD "Article" = "Article"
      rw [hst]
      rfl
    · intro hd
      show r.draft.getD false = false
      rw [hd]
      rfl
    · intro hf
      show r.featured.getD false = false
      rw [hf]
      rfl
    · intro ha
      show r.author.getD defaultAuthor = defaultAuthor
      rw [ha]
      rfl
    · intro p hp hc
      show r.priceRange.map
          (fun p => ({ min := p.min, max := p.max, currency := p.currency.getD "PHP" }
            : PriceRange)) =
        some { min := p.min, max := p.max, currency := "PHP" }
      rw [hp, Option.map_some', hc]
      rfl

/-- Witness for `parseArticle_valid`: the minimal raw example is accepted
and the asserted constraints and defaults hold of its parse. -/
theorem parseArticle_valid_witness :
    parseArticle articleRawExample = some articleParsedExample ∧
    ParsedArticleProps articleRawExample articleParsedExample :=
  ⟨by decide, parseArticle_valid articleRawExample articleParsedExample (by decide)⟩

/-! ### Heading extraction (C8) -/

theorem tryHeadingMatch_level {l : List Char} {k : Nat} {t r : List Char}
    (h : tryHeadingMatch l = some (k, t, r)) : 2 ≤ k ∧ k ≤ 4 := by
  unfold tryHeadingMatch at h
  simp only [] at h
  split at h
  case isFalse => simp at h
  case isTrue hk =>
    split at h
    case isFalse => simp at h
    case isTrue =>
      split at h
      · split at h
        · simp only [Option.some.injEq, Prod.mk.injEq] at h
          obtain ⟨hk', -⟩ := h
          exact hk' ▸ hk
        · simp at h
      · simp only [Option.some.injEq, Prod.mk.injEq] at h
        obtain ⟨hk', -⟩ := h
        exact hk' ▸ hk

theorem scanHeadingsAux_levels :
    ∀ (fuel : Nat) (l : List Char) (b : Bool) (m : Nat × List Char),
      m ∈ scanHeadingsAux fuel l b → 2 ≤ m.1 ∧ m.1 ≤ 4 := by
  intro fuel
  induction fuel with
  | zero => intro l b m h; simp [scanHeadingsAux] at h
  | succ fuel ih =>
    intro l b m h
    cases l with
    | nil => simp [scanHeadingsAux] at h
    | cons c rest =>
      cases b with
      | false =>
        rw [show scanHeadingsAux (fuel + 1) (c :: rest) false =
          scanHeadingsAux fuel rest (jsLineTerm c) from rfl] at h
        exact ih rest (jsLineTerm c) m h
      | true =>
        rw [show scanHeadingsAux (fuel + 1) (c :: rest) true =
          (match tryHeadingMatch (c :: rest) with
           | some (k, text, restAfter) =>
              (k, text) :: scanHeadingsAux fuel restAfter false
           | none => scanHeadingsAux fuel rest (jsLineTerm c)) from rfl] at h
        cases htm : tryHeadingMatch (c :: rest) with
        | none =>
          rw [htm] at h
          exact ih rest (jsLineTerm c) m h
        | some x =>
          obtain ⟨k, text, restAfter⟩ := x
          rw [htm] at h
          rcases List.mem_cons.mp h with hm | hm
          · subst hm
            exact tryHeadingMatch_level htm
          · exact ih restAfter false m hm

/-- **C8 (counterexample).** With the multiline flag, `\s+` in
`/^(#{2,4})\s+(.+)$/gm` can match *across a line break*, so an entry can be
produced although no single line matches the claimed line shape: on
`"##\nA"` the regex matches `"##\nA"` whole (level 2, text `"A"`), while
neither of the two lines begins with 2–4 `'#'` followed by whitespace and
non-empty in-line text. -/
theorem extractHeadings_line_cex :
    extractHeadings "##\nA" = [{ level := 2, text := "A", slug := "a" }] ∧
    (linesOf "##\nA").filter lineContributesSpec = [] := by
  constructor <;> rfl

/-- **C8 (amended).** On the three-line document `"## A\n### B\n#### C"`,
`extractHeadings` returns exactly the three entries, in document order,
with levels 2, 3, 4, texts `A`, `B`, `C` and slugs `a`, `b`, `c`; in
general every entry arises from a match of 2–4 `'#'` at a line start
followed by whitespace (which may span line breaks) and non-empty text, so
every entry's level lies between 2 and 4. -/
theorem extractHeadings_amended :
    extractHeadings "## A\n### B\n#### C" =
      [{ level := 2, text := "A", slug := "a" },
       { level := 3, text := "B", slug := "b" },
       { level := 4, text := "C", slug := "c" }] ∧
    (∀ content : String,
      (extractHeadings content).all
        (fun h => decide (2 ≤ h.level) && decide (h.level ≤ 4)) = true) := by
  refine ⟨by rfl, ?_⟩
  intro content
  rw [List.all_eq_true]
  intro h hh
  unfold extractHeadings at hh
  rcases List.mem_map.mp hh with ⟨m, hm, rfl⟩
  have := scanHeadingsAux_levels content.data.length content.data true m hm
  simp only [Bool.and_eq_true, decide_eq_true_eq]
  exact this

end Siquijor
